import Mathlib

/-
Verification of the director-side protocol engine of the
typescript-neuro-game-sdk repository.

The development shallowly embeds the relevant TypeScript sources:
  * src/server/src/index.ts        — the NeuroServer (two variants: the
    event-handler variant and the message-queue variant), its per-game
    action catalogue, the MessageQueue coalescing, the heartbeat, and the
    startup ("handshake") command handler;
  * src/src/index.ts (second part)  — the express-based director that owns
    the invoke/await-result state machine (onMessageReceived, sendAction);
  * src/server/examples/randy/src/index.ts — the RandyServer re-implementation
    (executeRandomAction and its handlers).

JS Maps are embedded as association lists with JS Map semantics (set
replaces in place or appends, delete removes the entry); setTimeout
callbacks are embedded as an explicit list of pending timer tasks that a
separate `fire` step consumes; Math.random draws are passed in as explicit
index / string parameters.
-/

set_option maxHeartbeats 1000000

namespace NeuroSdk

/-- An action registered by a game: name, description, and the optional
parameter-shape descriptor.  The engine never interprets the schema, so it
is kept as an opaque string. -/
structure Action where
  name : String
  description : String
  schema : Option String
deriving DecidableEq, Repr

/-- Association-list embedding of JS `Map.get`: the value stored under a
key, if any. -/
def mapLookup {κ α : Type} [DecidableEq κ] (m : List (κ × α)) (k : κ) : Option α :=
  match m with
  | [] => none
  | (k', v) :: rest => if k' = k then some v else mapLookup rest k

/-- Association-list embedding of JS `Map.set`: replace the entry in place
when the key is present, otherwise append a new entry. -/
def mapSet {κ α : Type} [DecidableEq κ] (m : List (κ × α)) (k : κ) (v : α) : List (κ × α) :=
  match m with
  | [] => [(k, v)]
  | (k', v') :: rest => if k' = k then (k, v) :: rest else (k', v') :: mapSet rest k v

/-- Association-list embedding of JS `Map.delete`: remove the entry with
the given key when present. -/
def mapDelete {κ α : Type} [DecidableEq κ] (m : List (κ × α)) (k : κ) : List (κ × α) :=
  match m with
  | [] => []
  | (k', v') :: rest => if k' = k then rest else (k', v') :: mapDelete rest k

/-- The keys of an association-list map. -/
def mapKeys {κ α : Type} (m : List (κ × α)) : List κ := m.map Prod.fst

/-- One game's action catalogue: the JS `Map<string, Action>` stored in
`NeuroServer.gameActions` (src/server/src/index.ts). -/
abbrev Cat := List (String × Action)

/-- The body of the `actions/register` command handler
(src/server/src/index.ts): for each incoming action, `gameActions.set(action.name, action)`. -/
def registerActions (c : Cat) (actions : List Action) : Cat :=
  actions.foldl (fun m a => mapSet m a.name a) c

/-- The body of the `actions/unregister` command handler
(src/server/src/index.ts): for each incoming name, `gameActions.delete(name)`. -/
def unregisterActions (c : Cat) (names : List String) : Cat :=
  names.foldl (fun m n => mapDelete m n) c

/-- A catalogue mutation as received on the wire: one register envelope
(with its action list) or one unregister envelope (with its name list). -/
inductive CatOp where
  | reg (actions : List Action)
  | unreg (names : List String)
deriving DecidableEq, Repr

/-- Dispatch one catalogue mutation to its handler. -/
def applyCatOp (c : Cat) : CatOp → Cat
  | .reg as => registerActions c as
  | .unreg ns => unregisterActions c ns

/-- Apply a sequence of catalogue mutations in arrival order. -/
def applyCatOps (c : Cat) (ops : List CatOp) : Cat := ops.foldl applyCatOp c

/-- An atomic catalogue event: the registration of a single action or the
removal of a single name (the handlers iterate their lists element-wise). -/
inductive CatEvent where
  | reg (a : Action)
  | unreg (n : String)
deriving DecidableEq, Repr

/-- Apply one atomic catalogue event. -/
def applyCatEvent (c : Cat) : CatEvent → Cat
  | .reg a => mapSet c a.name a
  | .unreg n => mapDelete c n

/-- Apply a sequence of atomic catalogue events. -/
def applyCatEvents (c : Cat) (evs : List CatEvent) : Cat := evs.foldl applyCatEvent c

/-- The atomic events performed by one wire-level mutation. -/
def catEvents : CatOp → List CatEvent
  | .reg as => as.map CatEvent.reg
  | .unreg ns => ns.map CatEvent.unreg

/-- The atomic events performed by a sequence of wire-level mutations. -/
def catEventsOf : List CatOp → List CatEvent
  | [] => []
  | op :: ops => catEvents op ++ catEventsOf ops

/-- Folding step for `specLastDecision`: remember the decision of the most
recent event that touches the name `n`. -/
def lastDecisionStep (n : String) (acc : Option (Option Action)) : CatEvent → Option (Option Action)
  | .reg a => if a.name = n then some (some a) else acc
  | .unreg m => if m = n then some none else acc

/-- Stated from the spec's words (section 8, first testable property), for
comparison with the code-side fold: the catalogue maps a name to its
most-recently-registered definition unless a later unregister removed it;
`some (some a)` means the last event touching `n` registered `a`,
`some none` means it unregistered `n`, and `none` means no event touched `n`. -/
def specLastDecision (n : String) (evs : List CatEvent) : Option (Option Action) :=
  evs.foldl (lastDecisionStep n) none

/-- Sample action used in concrete witnesses. -/
def actKeep : Action := ⟨"keep", "an action that stays registered", none⟩

/-- Sample action used in concrete witnesses. -/
def actAlphaOld : Action := ⟨"alpha", "first registration of alpha", none⟩

/-- Sample action used in concrete witnesses. -/
def actAlphaNew : Action := ⟨"alpha", "second registration of alpha", some "schema2"⟩

/-- Sample action used in concrete witnesses. -/
def actBeta : Action := ⟨"beta", "an action that gets unregistered", none⟩

/-- The guess-the-number action from the spec scenario. -/
def guessAction : Action := ⟨"guess_number", "Guess the number between 1 and 10.", some "number-schema"⟩

/-- An outbound envelope held in a `MessageQueue`
(src/server/src/index.ts, message-queue variant).  The two coalescible
command kinds expose their payload; every other command kind is opaque and
never merges. -/
inductive OutMsg where
  | register (actions : List Action)
  | unregister (names : List String)
  | other (command : String)
deriving DecidableEq, Repr

/-- The action-list merge done by `tryMergeMessages` for two register
envelopes: keep the existing actions whose name does not occur among the
incoming ones, then append the incoming list (the incoming definition wins
for a name present in both). -/
def mergeRegisterActions (ea ia : List Action) : List Action :=
  ea.filter (fun e => !(ia.any (fun i => i.name == e.name))) ++ ia

/-- The name-list merge done by `tryMergeMessages` for two unregister
envelopes: drop existing names that the incoming list repeats, then append
the incoming list. -/
def mergeUnregisterNames (en inn : List String) : List String :=
  en.filter (fun x => !(inn.contains x)) ++ inn

/-- `MessageQueue.tryMergeMessages`: same-kind catalogue mutations merge
(the existing entry is updated in place), everything else refuses. -/
def tryMergeMessages (existing incoming : OutMsg) : Option OutMsg :=
  match existing, incoming with
  | .register ea, .register ia => some (.register (mergeRegisterActions ea ia))
  | .unregister en, .unregister inn => some (.unregister (mergeUnregisterNames en inn))
  | _, _ => none

/-- `MessageQueue.enqueue`: walk the queued messages; the first one that
merges with the incoming message absorbs it, otherwise push at the back. -/
def enqueueMessage (q : List OutMsg) (m : OutMsg) : List OutMsg :=
  match q with
  | [] => [m]
  | e :: rest =>
      match tryMergeMessages e m with
      | some merged => merged :: rest
      | none => e :: enqueueMessage rest m

/-- A tracked client connection (`ClientConnection`): its id, the bound
game name (absent until the first startup command), and the heartbeat
liveness flag. -/
structure Conn where
  id : Nat
  gameName : Option String
  isAlive : Bool
deriving DecidableEq, Repr

/-- The per-game catalogues: `NeuroServer.gameActions`. -/
abbrev GameCats := List (String × Cat)

/-- An action registered before a reconnect, used in concrete witnesses. -/
def staleAction : Action := ⟨"stale_action", "registered before the reconnect", none⟩

/-- The `startup` command handler of the event-handler NeuroServer variant
(src/server/src/index.ts, first variant): a not-yet-bound connection is
bound to the announced game name, and an empty catalogue is created only
when the game name has none yet; a repeat startup on a bound connection is
ignored. -/
def startupHandlerEv (gameActions : GameCats) (conn : Conn) (dataGame : Option String) :
    GameCats × Conn :=
  match conn.gameName with
  | some _ => (gameActions, conn)
  | none =>
      let g := dataGame.getD "unknown"
      let ga := if (mapLookup gameActions g).isSome then gameActions
                else mapSet gameActions g []
      (ga, { conn with gameName := some g })

/-- The `startup` command handler of the message-queue NeuroServer variant
(src/server/src/index.ts, second variant): a not-yet-bound connection is
bound to the announced game name and the game's catalogue is
unconditionally replaced by an empty one; a repeat startup on a bound
connection is ignored. -/
def startupHandlerQueue (gameActions : GameCats) (conn : Conn) (dataGame : Option String) :
    GameCats × Conn :=
  match conn.gameName with
  | some _ => (gameActions, conn)
  | none =>
      let g := dataGame.getD "unknown"
      (mapSet gameActions g [], { conn with gameName := some g })

/-- One heartbeat interval (`startHeartbeat`): every connection whose
liveness flag is cleared is terminated and removed from the registry;
every other connection has its flag cleared and receives a ping probe.
Returns the remaining registry, the evicted ids, and the probed ids. -/
def heartbeatTick (conns : List (Nat × Conn)) :
    List (Nat × Conn) × List Nat × List Nat :=
  (conns.filterMap (fun p => if p.2.isAlive then some (p.1, { p.2 with isAlive := false }) else none),
   conns.filterMap (fun p => if p.2.isAlive then none else some p.1),
   conns.filterMap (fun p => if p.2.isAlive then some p.1 else none))

/-- The `pong` event handler: the probed connection acknowledges the probe
and its liveness flag is set back to true. -/
def onPong (conns : List (Nat × Conn)) (i : Nat) : List (Nat × Conn) :=
  conns.map (fun p => if p.1 = i then (p.1, { p.2 with isAlive := true }) else p)

/-- The connection-scoped state of the message-queue NeuroServer variant:
the connection registry, the per-connection outbound message queues, and
the connection id counter. -/
structure ServerConnState where
  connections : List (Nat × Conn)
  messageQueues : List (Nat × List OutMsg)
  connectionIdCounter : Nat
deriving DecidableEq, Repr

/-- The connection event of the message-queue variant: a fresh id is drawn
from the counter, the connection is added to the registry and a fresh
message queue is created for it. -/
def acceptConnection (s : ServerConnState) : ServerConnState :=
  let i := s.connectionIdCounter + 1
  { connections := mapSet s.connections i { id := i, gameName := none, isAlive := true },
    messageQueues := mapSet s.messageQueues i [],
    connectionIdCounter := i }

/-- The socket close event of the message-queue variant: the connection
and its message queue are both removed. -/
def closeConnection (s : ServerConnState) (i : Nat) : ServerConnState :=
  { s with
    connections := mapDelete s.connections i,
    messageQueues := mapDelete s.messageQueues i }

/-- `startHeartbeat` of the message-queue variant: the registry is swept as
in `heartbeatTick` and every evicted connection's message queue is deleted
as well. -/
def serverHeartbeatTick (s : ServerConnState) : ServerConnState :=
  { s with
    connections := (heartbeatTick s.connections).1,
    messageQueues := (heartbeatTick s.connections).2.1.foldl mapDelete s.messageQueues }

/-- The connection/queue correspondence of the message-queue variant: the
registry and the queue map list exactly the same connection ids, ids are
unique, and every id was drawn from the counter. -/
def queueRegistryInvariant (s : ServerConnState) : Prop :=
  mapKeys s.connections = mapKeys s.messageQueues
  ∧ (mapKeys s.connections).Nodup
  ∧ ∀ i ∈ mapKeys s.connections, i ≤ s.connectionIdCounter

/-- An `action` envelope sent to the game: the invocation id and the
chosen action name.  The payload string produced by the schema faker is
external glue and not modelled. -/
structure SentAction where
  id : String
  name : String
deriving DecidableEq, Repr

/-- A pending `setTimeout` callback of the express-based director
(src/src/index.ts, second part).  `send nm` stands for the closure
`() => sendAction(nm)` captured at scheduling time; `sendShift` stands for
`() => sendAction(actionForceQueue.shift())`, which reads the backlog only
when the timer fires. -/
inductive TimerTask where
  | send (name : String)
  | sendShift
deriving DecidableEq, Repr

/-- The mutable state of the express-based director (src/src/index.ts,
second part): the `actions` array, `pendingResult`, `actionForceQueue`,
and the pending settle-delay timers in scheduling order. -/
structure CoordState where
  actions : List Action
  pendingResult : Option (String × String)
  actionForceQueue : List String
  timers : List TimerTask
deriving DecidableEq, Repr

/-- `sendAction(actionName)` of the express-based director, with the
`Math.random().toString()` id draw passed in as `freshId`.  The
`choose_name` action is special-cased and sent even when unregistered;
any other name is looked up in the `actions` array and silently dropped
when absent.  `send` records the outgoing action as `pendingResult`. -/
def sendAction (s : CoordState) (actionName : String) (freshId : String) :
    CoordState × Option SentAction :=
  if actionName = "choose_name" then
    ({ s with pendingResult := some (freshId, "choose_name") },
     some { id := freshId, name := "choose_name" })
  else
    match s.actions.find? (fun a => a.name == actionName) with
    | none => (s, none)
    | some a =>
        ({ s with pendingResult := some (freshId, a.name) },
         some { id := freshId, name := a.name })

/-- An inbound envelope consumed by `onMessageReceived` of the
express-based director.  A `force` envelope carries the candidate names
together with the index drawn by `Math.floor(Math.random() * length)`. -/
inductive CoordMsg where
  | register (actions : List Action)
  | unregister (names : List String)
  | force (names : List String) (pick : Nat)
  | result (id : String) (success : Bool)
deriving DecidableEq, Repr

/-- `onMessageReceived` of the express-based director (src/src/index.ts,
second part).  Register appends to the `actions` array; unregister filters
it; force draws `names[pick]` and either schedules a settle-delay send (no
invocation outstanding) or pushes the drawn name onto the backlog; a
result is checked against the outstanding invocation: a matching failure
schedules a retry of the same action name, a matching success schedules
the backlog shift when the backlog is non-empty, and a mismatched or
unexpected result is only logged.  (A force with an out-of-range draw —
possible only for an empty candidate list — flows an undefined name into
`sendAction`, which drops it; it is modelled as a no-op.) -/
def onMessageReceived (s : CoordState) : CoordMsg → CoordState
  | .register as => { s with actions := s.actions ++ as }
  | .unregister ns => { s with actions := s.actions.filter (fun a => !(ns.contains a.name)) }
  | .force names pick =>
      match names.get? pick with
      | none => s
      | some actionName =>
          if s.pendingResult = none then
            { s with timers := s.timers ++ [.send actionName] }
          else
            { s with actionForceQueue := s.actionForceQueue ++ [actionName] }
  | .result rid success =>
      match s.pendingResult with
      | none => s
      | some (pid, pname) =>
          if rid = pid then
            if success = false then
              { s with pendingResult := none, timers := s.timers ++ [.send pname] }
            else if s.actionForceQueue.isEmpty then
              { s with pendingResult := none }
            else
              { s with pendingResult := none, timers := s.timers ++ [.sendShift] }
          else s

/-- Firing the oldest pending settle-delay timer of the express-based
director: a captured `send nm` runs `sendAction(nm)`; a `sendShift` shifts
the backlog head (if any) and sends it. -/
def fireTimer (s : CoordState) (freshId : String) : CoordState × Option SentAction :=
  match s.timers with
  | [] => (s, none)
  | t :: rest =>
      match t with
      | .send nm => sendAction { s with timers := rest } nm freshId
      | .sendShift =>
          match s.actionForceQueue with
          | [] => ({ s with timers := rest }, none)
          | nm :: q => sendAction { s with timers := rest, actionForceQueue := q } nm freshId

/-- The mutable state of the RandyServer example
(src/server/examples/randy/src/index.ts): per-game registered action
lists, `pendingResult`, `actionForceQueue`, and the pending
`executeRandomAction` timers (game name and candidate names). -/
structure RandyState where
  registeredActions : List (String × List Action)
  pendingResult : Option (String × String)
  actionForceQueue : List String
  timers : List (String × List String)
deriving DecidableEq, Repr

/-- The candidate filtering inside `executeRandomAction`: only registered
actions whose name occurs among the requested candidates are drawn from. -/
def availableActions (known : List Action) (actionNames : List String) : List Action :=
  known.filter (fun a => actionNames.contains a.name)

/-- `executeRandomAction` of the RandyServer, with the random draw passed
in as the index `pick` and the generated id as `freshId`: filter the
registered actions down to the requested candidates, warn and do nothing
when none remains, otherwise send the drawn action and record it as
`pendingResult`.  (An out-of-range draw would trip the `assert`, which the
dispatch loop absorbs; it is modelled as a no-op.) -/
def executeRandomAction (s : RandyState) (gameName : String) (actionNames : List String)
    (pick : Nat) (freshId : String) : RandyState × Option SentAction :=
  let actions := (mapLookup s.registeredActions gameName).getD []
  let available := availableActions actions actionNames
  if available.isEmpty then (s, none)
  else
    match available.get? pick with
    | none => (s, none)
    | some selected =>
        ({ s with pendingResult := some (freshId, selected.name) },
         some { id := freshId, name := selected.name })

/-- The `actions/register` handler of the RandyServer: append the incoming
actions to the game's list. -/
def randyRegisterActions (s : RandyState) (gameName : String) (actions : List Action) :
    RandyState :=
  let prev := (mapLookup s.registeredActions gameName).getD []
  { s with registeredActions := mapSet s.registeredActions gameName (prev ++ actions) }

/-- The `actions/unregister` handler of the RandyServer: drop the named
actions from the game's list. -/
def randyUnregisterActions (s : RandyState) (gameName : String) (actionNames : List String) :
    RandyState :=
  let prev := (mapLookup s.registeredActions gameName).getD []
  let kept := prev.filter (fun a => !(actionNames.contains a.name))
  { s with registeredActions := mapSet s.registeredActions gameName kept }

/-- The `actions/force` handler of the RandyServer: with no invocation
outstanding, schedule `executeRandomAction` on the candidates after the
settle delay; otherwise push all candidate names onto the backlog. -/
def randyOnForce (s : RandyState) (gameName : String) (actionNames : List String) :
    RandyState :=
  if s.pendingResult = none then
    { s with timers := s.timers ++ [(gameName, actionNames)] }
  else
    { s with actionForceQueue := s.actionForceQueue ++ actionNames }

/-- The `action/result` handler of the RandyServer: when the result's id
matches the outstanding invocation the invocation completes — regardless
of the reported success flag — and, when the backlog is non-empty, its
head is shifted and scheduled; a mismatched or unexpected result is only
logged. -/
def randyOnResult (s : RandyState) (gameName : String) (rid : String) (_success : Bool) :
    RandyState :=
  match s.pendingResult with
  | none => s
  | some (pid, _) =>
      if pid = rid then
        match s.actionForceQueue with
        | [] => { s with pendingResult := none }
        | nm :: rest =>
            { s with pendingResult := none, actionForceQueue := rest,
                     timers := s.timers ++ [(gameName, [nm])] }
      else s

/-- One retry round of the express-based director under a failing remote:
the outstanding invocation's matching failure result arrives, then the
scheduled settle-delay timer fires with a fresh id. -/
def retryStep (s : CoordState) (freshId : String) : CoordState :=
  match s.pendingResult with
  | some (pid, _) => (fireTimer (onMessageReceived s (.result pid false)) freshId).1
  | none => s

/-- Iterate `retryStep` with a stream of fresh ids. -/
def retryIter : CoordState → (Nat → String) → Nat → CoordState
  | s, _, 0 => s
  | s, ids, n + 1 => retryIter (retryStep s (ids 0)) (fun k => ids (k + 1)) n

/-- True when the incoming result id does not match the outstanding
invocation, or none is outstanding — the two situations the coordinator
only logs. -/
def unmatchedResult (pr : Option (String × String)) (rid : String) : Bool :=
  match pr with
  | none => true
  | some p => p.1 != rid

/-- Two force envelopes, each with a single candidate, arriving at the
express-based director (used to set up backlog entries E1 then E2). -/
def backlogTwo (s : CoordState) (e1 e2 : String) : CoordState :=
  onMessageReceived (onMessageReceived s (.force [e1] 0)) (.force [e2] 0)

/-- One completed round of the express-based director: the outstanding
invocation's matching success result arrives, then the scheduled timer
fires with a fresh id. -/
def fifoStep (s : CoordState) (rid fid : String) : CoordState × Option SentAction :=
  fireTimer (onMessageReceived s (.result rid true)) fid

/-- A stream of fresh invocation ids used in concrete witnesses. -/
def freshIds : Nat → String := fun _ => "fresh_id"

/-- The decimal digit characters of a natural number, most significant
first: the embedding of the JS number-to-string conversion performed by
the template literal in `generateActionId`. -/
def natChars (n : Nat) : List Char :=
  if n < 10 then [Nat.digitChar n]
  else natChars (n / 10) ++ [Nat.digitChar (n % 10)]
termination_by n
decreasing_by
  apply Nat.div_lt_self <;> omega

/-- The JS decimal rendering of a number as a string. -/
def natRepr (n : Nat) : String := ⟨natChars n⟩

/-- `generateActionId` (src/server/src/index.ts): the template literal
concatenating the prefixed timestamp and a random suffix, with the
`Date.now()` reading and the base-36 `Math.random()` suffix passed in
explicitly — the generator keeps no other state. -/
def generateActionId (now : Nat) (rand : String) : String :=
  "action_" ++ natRepr now ++ "_" ++ rand

/-- Decode a digit-character list back to the rendered value (left
inverse showing the decimal rendering is injective). -/
def natVal (cs : List Char) : Nat :=
  cs.foldl (fun acc c => acc * 10 + (c.toNat - 48)) 0

end NeuroSdk

namespace NeuroSdk

theorem mapKeys_nil {κ α : Type} : mapKeys ([] : List (κ × α)) = [] := rfl

theorem mapKeys_cons {κ α : Type} (k : κ) (v : α) (m : List (κ × α)) :
    mapKeys ((k, v) :: m) = k :: mapKeys m := rfl

variable {κ α : Type} [DecidableEq κ]

theorem mapSet_cons_eq (k : κ) (v v' : α) (rest : List (κ × α)) :
    mapSet ((k, v') :: rest) k v = (k, v) :: rest := by
  simp [mapSet]

theorem mapSet_cons_ne (k k' : κ) (v v' : α) (rest : List (κ × α)) (h : ¬ k' = k) :
    mapSet ((k', v') :: rest) k v = (k', v') :: mapSet rest k v := by
  simp only [mapSet]
  rw [if_neg h]

theorem mapDelete_cons_eq (k : κ) (v' : α) (rest : List (κ × α)) :
    mapDelete ((k, v') :: rest) k = rest := by
  simp [mapDelete]

theorem mapDelete_cons_ne (k k' : κ) (v' : α) (rest : List (κ × α)) (h : ¬ k' = k) :
    mapDelete ((k', v') :: rest) k = (k', v') :: mapDelete rest k := by
  simp only [mapDelete]
  rw [if_neg h]

theorem mapLookup_set_self (m : List (κ × α)) (k : κ) (v : α) :
    mapLookup (mapSet m k v) k = some v := by
  induction m with
  | nil => simp [mapSet, mapLookup]
  | cons p rest ih =>
    obtain ⟨k', v'⟩ := p
    by_cases h : k' = k <;> simp [mapSet, mapLookup, h, ih]

theorem mapLookup_set_ne (m : List (κ × α)) (k k'' : κ) (v : α) (h : k'' ≠ k) :
    mapLookup (mapSet m k v) k'' = mapLookup m k'' := by
  have h' : ¬ k = k'' := fun hh => h hh.symm
  induction m with
  | nil => simp [mapSet, mapLookup, h']
  | cons p rest ih =>
    obtain ⟨k', v'⟩ := p
    by_cases hk : k' = k
    · subst hk
      simp [mapSet, mapLookup, h']
    · by_cases hk'' : k' = k'' <;> simp [mapSet, mapLookup, hk, hk'', h', h, ih]

theorem mapLookup_eq_none_of_not_mem (m : List (κ × α)) (k : κ) (h : k ∉ mapKeys m) :
    mapLookup m k = none := by
  induction m with
  | nil => simp [mapLookup]
  | cons p rest ih =>
    obtain ⟨k', v'⟩ := p
    rw [mapKeys_cons, List.mem_cons] at h
    push_neg at h
    have h1 : ¬ k' = k := fun hh => h.1 hh.symm
    simp [mapLookup, h1, ih h.2]

theorem mapLookup_delete_self (m : List (κ × α)) (k : κ) (hnd : (mapKeys m).Nodup) :
    mapLookup (mapDelete m k) k = none := by
  induction m with
  | nil => simp [mapDelete, mapLookup]
  | cons p rest ih =>
    obtain ⟨k', v'⟩ := p
    rw [mapKeys_cons, List.nodup_cons] at hnd
    by_cases hk : k' = k
    · subst hk
      simp only [mapDelete, if_pos rfl]
      exact mapLookup_eq_none_of_not_mem rest k' hnd.1
    · simp [mapDelete, mapLookup, hk, ih hnd.2]

theorem mapLookup_delete_ne (m : List (κ × α)) (k k'' : κ) (h : k'' ≠ k) :
    mapLookup (mapDelete m k) k'' = mapLookup m k'' := by
  have h' : ¬ k = k'' := fun hh => h hh.symm
  induction m with
  | nil => simp [mapDelete]
  | cons p rest ih =>
    obtain ⟨k', v'⟩ := p
    by_cases hk : k' = k
    · subst hk
      simp [mapDelete, mapLookup, h']
    · by_cases hk'' : k' = k'' <;> simp [mapDelete, mapLookup, hk, hk'', h', h, ih]

theorem mem_mapKeys_set (m : List (κ × α)) (k k'' : κ) (v : α) :
    k'' ∈ mapKeys (mapSet m k v) ↔ k'' = k ∨ k'' ∈ mapKeys m := by
  induction m with
  | nil => simp [mapSet, mapKeys_cons, mapKeys_nil, List.mem_cons]
  | cons p rest ih =>
    obtain ⟨k', v'⟩ := p
    by_cases hk : k' = k
    · subst hk
      rw [mapSet_cons_eq, mapKeys_cons, mapKeys_cons]
      simp only [List.mem_cons]
      tauto
    · rw [mapSet_cons_ne _ _ _ _ _ hk, mapKeys_cons, mapKeys_cons]
      simp only [List.mem_cons, ih]
      tauto

theorem nodup_mapKeys_set (m : List (κ × α)) (k : κ) (v : α)
    (hnd : (mapKeys m).Nodup) : (mapKeys (mapSet m k v)).Nodup := by
  induction m with
  | nil => simp [mapSet, mapKeys_cons, mapKeys_nil]
  | cons p rest ih =>
    obtain ⟨k', v'⟩ := p
    rw [mapKeys_cons, List.nodup_cons] at hnd
    by_cases hk : k' = k
    · subst hk
      rw [mapSet_cons_eq, mapKeys_cons, List.nodup_cons]
      exact ⟨hnd.1, hnd.2⟩
    · have hmem : k' ∉ mapKeys (mapSet rest k v) := by
        rw [mem_mapKeys_set]
        push_neg
        exact ⟨hk, hnd.1⟩
      rw [mapSet_cons_ne _ _ _ _ _ hk, mapKeys_cons, List.nodup_cons]
      exact ⟨hmem, ih hnd.2⟩

theorem mem_mapKeys_delete (m : List (κ × α)) (k k'' : κ)
    (h : k'' ∈ mapKeys (mapDelete m k)) : k'' ∈ mapKeys m := by
  induction m with
  | nil => simpa [mapDelete] using h
  | cons p rest ih =>
    obtain ⟨k', v'⟩ := p
    rw [mapKeys_cons, List.mem_cons]
    by_cases hk : k' = k
    · subst hk
      rw [mapDelete_cons_eq] at h
      exact Or.inr h
    · rw [mapDelete_cons_ne _ _ _ _ hk, mapKeys_cons, List.mem_cons] at h
      rcases h with h | h
      · exact Or.inl h
      · exact Or.inr (ih h)

theorem nodup_mapKeys_delete (m : List (κ × α)) (k : κ)
    (hnd : (mapKeys m).Nodup) : (mapKeys (mapDelete m k)).Nodup := by
  induction m with
  | nil => simp [mapDelete, mapKeys_nil]
  | cons p rest ih =>
    obtain ⟨k', v'⟩ := p
    rw [mapKeys_cons, List.nodup_cons] at hnd
    by_cases hk : k' = k
    · subst hk
      rw [mapDelete_cons_eq]
      exact hnd.2
    · rw [mapDelete_cons_ne _ _ _ _ hk, mapKeys_cons, List.nodup_cons]
      exact ⟨fun hmem => hnd.1 (mem_mapKeys_delete rest k k' hmem), ih hnd.2⟩

theorem mapDelete_of_lookup_none (m : List (κ × α)) (k : κ)
    (h : mapLookup m k = none) : mapDelete m k = m := by
  induction m with
  | nil => simp [mapDelete]
  | cons p rest ih =>
    obtain ⟨k', v'⟩ := p
    by_cases hk : k' = k
    · simp [mapLookup, hk] at h
    · simp only [mapLookup, if_neg hk] at h
      simp [mapDelete, hk, ih h]

end NeuroSdk

namespace NeuroSdk

theorem foldl_lastDecisionStep_getD (n : String) (evs : List CatEvent)
    (acc : Option (Option Action)) (d : Option Action) :
    (evs.foldl (lastDecisionStep n) acc).getD d
      = (evs.foldl (lastDecisionStep n) none).getD (acc.getD d) := by
  induction evs generalizing acc d with
  | nil => simp
  | cons e evs ih =>
    rw [List.foldl_cons, List.foldl_cons, ih (lastDecisionStep n acc e) d,
      ih (lastDecisionStep n none e) (acc.getD d)]
    congr 1
    cases e with
    | reg a => by_cases h : a.name = n <;> simp [lastDecisionStep, h]
    | unreg m => by_cases h : m = n <;> simp [lastDecisionStep, h]

theorem nodup_mapKeys_applyCatEvent (c : Cat) (e : CatEvent)
    (h : (mapKeys c).Nodup) : (mapKeys (applyCatEvent c e)).Nodup := by
  cases e with
  | reg a => exact nodup_mapKeys_set c a.name a h
  | unreg m => exact nodup_mapKeys_delete c m h

theorem mapLookup_applyCatEvents (n : String) (evs : List CatEvent) (c : Cat)
    (hnd : (mapKeys c).Nodup) :
    mapLookup (applyCatEvents c evs) n
      = (specLastDecision n evs).getD (mapLookup c n) := by
  induction evs generalizing c with
  | nil => simp [applyCatEvents, specLastDecision]
  | cons e evs ih =>
    have hnd' := nodup_mapKeys_applyCatEvent c e hnd
    rw [show applyCatEvents c (e :: evs) = applyCatEvents (applyCatEvent c e) evs from rfl]
    rw [ih (applyCatEvent c e) hnd']
    rw [show specLastDecision n (e :: evs)
          = evs.foldl (lastDecisionStep n) (lastDecisionStep n none e) from rfl]
    rw [show (evs.foldl (lastDecisionStep n) (lastDecisionStep n none e)).getD (mapLookup c n)
          = (evs.foldl (lastDecisionStep n) none).getD
              ((lastDecisionStep n none e).getD (mapLookup c n))
        from foldl_lastDecisionStep_getD n evs (lastDecisionStep n none e) (mapLookup c n)]
    rw [show specLastDecision n evs = evs.foldl (lastDecisionStep n) none from rfl]
    congr 1
    cases e with
    | reg a =>
      by_cases h : a.name = n
      · subst h
        simp [applyCatEvent, lastDecisionStep, mapLookup_set_self]
      · simp [applyCatEvent, lastDecisionStep, h,
          mapLookup_set_ne c a.name n a (fun hh => h hh.symm)]
    | unreg m =>
      by_cases h : m = n
      · subst h
        simp [applyCatEvent, lastDecisionStep, mapLookup_delete_self c m hnd]
      · simp [applyCatEvent, lastDecisionStep, h,
          mapLookup_delete_ne c m n (fun hh => h hh.symm)]

theorem registerActions_eq_events (c : Cat) (as : List Action) :
    registerActions c as = applyCatEvents c (as.map CatEvent.reg) := by
  simp only [registerActions, applyCatEvents, List.foldl_map]
  rfl

theorem unregisterActions_eq_events (c : Cat) (ns : List String) :
    unregisterActions c ns = applyCatEvents c (ns.map CatEvent.unreg) := by
  simp only [unregisterActions, applyCatEvents, List.foldl_map]
  rfl

theorem applyCatOps_eq_events (ops : List CatOp) (c : Cat) :
    applyCatOps c ops = applyCatEvents c (catEventsOf ops) := by
  induction ops generalizing c with
  | nil => rfl
  | cons op ops ih =>
    rw [show applyCatOps c (op :: ops) = applyCatOps (applyCatOp c op) ops from rfl]
    rw [ih (applyCatOp c op)]
    rw [show catEventsOf (op :: ops) = catEvents op ++ catEventsOf ops from rfl]
    rw [show applyCatEvents c (catEvents op ++ catEventsOf ops)
          = applyCatEvents (applyCatEvents c (catEvents op)) (catEventsOf ops)
        from by simp [applyCatEvents, List.foldl_append]]
    congr 1
    cases op with
    | reg as => exact registerActions_eq_events c as
    | unreg ns => exact unregisterActions_eq_events c ns

/-- C3: applying any finite sequence of register and unregister envelopes to
an initially empty catalogue yields a catalogue whose lookup at any name is
decided by the most recent atomic event touching that name (the
most-recently-registered definition, unless later unregistered, absent if
never registered); moreover registering an existing name overwrites its
definition wholesale and unregistering an absent name leaves the catalogue
unchanged. -/
theorem C3_catalogue_registration (ops : List CatOp) (n : String) (c : Cat)
    (a : Action) (m : String) (hm : mapLookup c m = none) :
    mapLookup (applyCatOps [] ops) n = (specLastDecision n (catEventsOf ops)).getD none
    ∧ mapLookup (registerActions c [a]) a.name = some a
    ∧ unregisterActions c [m] = c := by
  refine ⟨?_, ?_, ?_⟩
  · rw [applyCatOps_eq_events]
    have h := mapLookup_applyCatEvents n (catEventsOf ops) [] (by simp [mapKeys_nil])
    simpa [mapLookup] using h
  · simp [registerActions, mapLookup_set_self]
  · simp [unregisterActions, mapDelete_of_lookup_none c m hm]

theorem C3_catalogue_registration_witness :
    mapLookup ([("keep", actKeep)] : Cat) "gone" = none
    ∧ (mapLookup (applyCatOps [] [CatOp.reg [actAlphaOld, actBeta], CatOp.unreg ["beta"], CatOp.reg [actAlphaNew]]) "alpha"
        = (specLastDecision "alpha"
            (catEventsOf [CatOp.reg [actAlphaOld, actBeta], CatOp.unreg ["beta"], CatOp.reg [actAlphaNew]])).getD none
       ∧ mapLookup (registerActions [("keep", actKeep)] [actAlphaNew]) actAlphaNew.name = some actAlphaNew
       ∧ unregisterActions [("keep", actKeep)] ["gone"] = [("keep", actKeep)]) :=
  ⟨by decide,
   C3_catalogue_registration
     [CatOp.reg [actAlphaOld, actBeta], CatOp.unreg ["beta"], CatOp.reg [actAlphaNew]]
     "alpha" [("keep", actKeep)] actAlphaNew "gone" (by decide)⟩

end NeuroSdk

namespace NeuroSdk

theorem find?_mergeRegisterActions (L1 L2 : List Action) (n : String)
    (hn : n ∈ L2.map (fun a => a.name)) :
    (mergeRegisterActions L1 L2).find? (fun a => a.name == n)
      = L2.find? (fun a => a.name == n) := by
  have hfilter :
      (L1.filter (fun e => !(L2.any (fun i => i.name == e.name)))).find?
        (fun a => a.name == n) = none := by
    apply List.find?_eq_none.mpr
    intro x hx hbeq
    have hx2 := (List.mem_filter.mp hx).2
    have hxn : x.name = n := by simpa using hbeq
    rcases List.mem_map.mp hn with ⟨i, hi, hiname⟩
    have : L2.any (fun i => i.name == x.name) = true :=
      List.any_eq_true.mpr ⟨i, hi, by simp [hiname, hxn]⟩
    simp [this] at hx2
  rw [mergeRegisterActions, List.find?_append, hfilter]
  rfl

/-- C4: enqueuing two register envelopes into an undrained queue produces a
single queued register entry whose action list is the union by name with
the incoming definition winning for a shared name; enqueuing two
unregister envelopes produces a single entry whose name list is the
duplicate-free union of the two name sets. -/
theorem C4_queue_coalescing (L1 L2 : List Action) (U1 U2 : List String)
    (n m b : String)
    (hn : n ∈ L2.map (fun a => a.name))
    (h1 : U1.Nodup) (h2 : U2.Nodup) :
    enqueueMessage (enqueueMessage [] (.register L1)) (.register L2)
      = [.register (mergeRegisterActions L1 L2)]
    ∧ (m ∈ (mergeRegisterActions L1 L2).map (fun a => a.name)
        ↔ m ∈ L1.map (fun a => a.name) ∨ m ∈ L2.map (fun a => a.name))
    ∧ (mergeRegisterActions L1 L2).find? (fun a => a.name == n)
        = L2.find? (fun a => a.name == n)
    ∧ enqueueMessage (enqueueMessage [] (.unregister U1)) (.unregister U2)
      = [.unregister (mergeUnregisterNames U1 U2)]
    ∧ (b ∈ mergeUnregisterNames U1 U2 ↔ b ∈ U1 ∨ b ∈ U2)
    ∧ (mergeUnregisterNames U1 U2).Nodup := by
  refine ⟨rfl, ?_, find?_mergeRegisterActions L1 L2 n hn, rfl, ?_, ?_⟩
  · constructor
    · intro hmem
      rcases List.mem_map.mp hmem with ⟨a, ha, rfl⟩
      rcases List.mem_append.mp ha with hf | hl
      · exact Or.inl (List.mem_map.mpr ⟨a, (List.mem_filter.mp hf).1, rfl⟩)
      · exact Or.inr (List.mem_map.mpr ⟨a, hl, rfl⟩)
    · intro h
      rcases h with h | h
      · rcases List.mem_map.mp h with ⟨a, ha, rfl⟩
        by_cases hc : L2.any (fun i => i.name == a.name) = true
        · rcases List.any_eq_true.mp hc with ⟨i, hi, hname⟩
          refine List.mem_map.mpr ⟨i, List.mem_append.mpr (Or.inr hi), ?_⟩
          simpa using hname
        · refine List.mem_map.mpr
            ⟨a, List.mem_append.mpr (Or.inl (List.mem_filter.mpr ⟨ha, ?_⟩)), rfl⟩
          simpa using hc
      · rcases List.mem_map.mp h with ⟨a, ha, rfl⟩
        exact List.mem_map.mpr ⟨a, List.mem_append.mpr (Or.inr ha), rfl⟩
  · constructor
    · intro hmem
      rcases List.mem_append.mp hmem with hf | hu
      · exact Or.inl (List.mem_filter.mp hf).1
      · exact Or.inr hu
    · intro h
      rcases h with h | h
      · by_cases hc : U2.contains b = true
        · exact List.mem_append.mpr (Or.inr (by simpa using hc))
        · exact List.mem_append.mpr
            (Or.inl (List.mem_filter.mpr ⟨h, by simpa using hc⟩))
      · exact List.mem_append.mpr (Or.inr h)
  · refine List.Nodup.append (h1.filter _) h2 ?_
    intro x hx hx2
    have := (List.mem_filter.mp hx).2
    simp at this
    exact this hx2

theorem C4_queue_coalescing_witness :
    "alpha" ∈ [actAlphaNew].map (fun a => a.name)
    ∧ (["keep"] : List String).Nodup
    ∧ (["keep", "beta"] : List String).Nodup
    ∧ (enqueueMessage (enqueueMessage [] (.register [actAlphaOld, actKeep])) (.register [actAlphaNew])
        = [.register (mergeRegisterActions [actAlphaOld, actKeep] [actAlphaNew])]
      ∧ ("keep" ∈ (mergeRegisterActions [actAlphaOld, actKeep] [actAlphaNew]).map (fun a => a.name)
          ↔ "keep" ∈ [actAlphaOld, actKeep].map (fun a => a.name)
            ∨ "keep" ∈ [actAlphaNew].map (fun a => a.name))
      ∧ (mergeRegisterActions [actAlphaOld, actKeep] [actAlphaNew]).find? (fun a => a.name == "alpha")
          = [actAlphaNew].find? (fun a => a.name == "alpha")
      ∧ enqueueMessage (enqueueMessage [] (.unregister ["keep"])) (.unregister ["keep", "beta"])
          = [.unregister (mergeUnregisterNames ["keep"] ["keep", "beta"])]
      ∧ ("beta" ∈ mergeUnregisterNames ["keep"] ["keep", "beta"]
          ↔ "beta" ∈ (["keep"] : List String) ∨ "beta" ∈ (["keep", "beta"] : List String))
      ∧ (mergeUnregisterNames ["keep"] ["keep", "beta"]).Nodup) :=
  ⟨by decide, by decide, by decide,
   C4_queue_coalescing [actAlphaOld, actKeep] [actAlphaNew] ["keep"] ["keep", "beta"]
     "alpha" "keep" "beta" (by decide) (by decide) (by decide)⟩

end NeuroSdk

namespace NeuroSdk

/-- C5 counterexample: in the event-handler variant, a handshake on a
not-yet-bound connection under a game name that already has a catalogue
binds the connection but leaves the stale catalogue in place, so the
action registered before the reconnect survives the new handshake. -/
theorem C5_startup_counterexample :
    (startupHandlerEv [("G", [("stale_action", staleAction)])] ⟨1, none, true⟩ (some "G")).2.gameName
      = some "G"
    ∧ mapLookup ((startupHandlerEv [("G", [("stale_action", staleAction)])] ⟨1, none, true⟩ (some "G")).1) "G"
      = some [("stale_action", staleAction)] := by
  decide

/-- C5 (amended): a handshake on a not-yet-bound connection binds the
connection's game name in both server variants; the message-queue variant
clears the game's catalogue, while the event-handler variant keeps any
existing catalogue and only creates an empty one when none exists; repeat
handshakes on an already-bound connection are ignored in both variants, so
the binding (and any reset) happens at most once per connection. -/
theorem C5_startup_binding_and_reset (ga : GameCats) (c : Conn) (g : String)
    (hc : c.gameName = none) (gb : Conn) (hb : gb.gameName.isSome = true) (d : Option String) :
    (startupHandlerQueue ga c (some g)).2.gameName = some g
    ∧ mapLookup (startupHandlerQueue ga c (some g)).1 g = some []
    ∧ (startupHandlerEv ga c (some g)).2.gameName = some g
    ∧ mapLookup (startupHandlerEv ga c (some g)).1 g = some ((mapLookup ga g).getD [])
    ∧ startupHandlerQueue ga gb d = (ga, gb)
    ∧ startupHandlerEv ga gb d = (ga, gb) := by
  obtain ⟨gname, hgname⟩ := Option.isSome_iff_exists.mp hb
  refine ⟨?_, ?_, ?_, ?_, ?_, ?_⟩
  · simp [startupHandlerQueue, hc]
  · simp [startupHandlerQueue, hc, mapLookup_set_self]
  · simp [startupHandlerEv, hc]
  · cases hg : mapLookup ga g with
    | some cat => simp [startupHandlerEv, hc, hg]
    | none => simp [startupHandlerEv, hc, hg, mapLookup_set_self]
  · simp [startupHandlerQueue, hgname]
  · simp [startupHandlerEv, hgname]

theorem C5_startup_binding_and_reset_witness :
    (⟨1, none, true⟩ : Conn).gameName = none
    ∧ (⟨2, some "G", false⟩ : Conn).gameName.isSome = true
    ∧ ((startupHandlerQueue [("G", [("stale_action", staleAction)])] ⟨1, none, true⟩ (some "G")).2.gameName = some "G"
      ∧ mapLookup (startupHandlerQueue [("G", [("stale_action", staleAction)])] ⟨1, none, true⟩ (some "G")).1 "G" = some []
      ∧ (startupHandlerEv [("G", [("stale_action", staleAction)])] ⟨1, none, true⟩ (some "G")).2.gameName = some "G"
      ∧ mapLookup (startupHandlerEv [("G", [("stale_action", staleAction)])] ⟨1, none, true⟩ (some "G")).1 "G"
          = some ((mapLookup [("G", [("stale_action", staleAction)])] "G").getD [])
      ∧ startupHandlerQueue [("G", [("stale_action", staleAction)])] ⟨2, some "G", false⟩ (some "H")
          = ([("G", [("stale_action", staleAction)])], ⟨2, some "G", false⟩)
      ∧ startupHandlerEv [("G", [("stale_action", staleAction)])] ⟨2, some "G", false⟩ (some "H")
          = ([("G", [("stale_action", staleAction)])], ⟨2, some "G", false⟩)) :=
  ⟨rfl, rfl,
   C5_startup_binding_and_reset [("G", [("stale_action", staleAction)])] ⟨1, none, true⟩ "G"
     rfl ⟨2, some "G", false⟩ rfl (some "H")⟩

end NeuroSdk

namespace NeuroSdk

theorem mapLookup_skip_head {κ α : Type} [DecidableEq κ] (j : κ) (v : α)
    (rest : List (κ × α)) (i : κ) (hj : ¬ j = i) :
    mapLookup ((j, v) :: rest) i = mapLookup rest i := by
  simp [mapLookup, hj]

theorem heartbeatTick_cons_alive (j : Nat) (c : Conn) (rest : List (Nat × Conn))
    (ha : c.isAlive = true) :
    heartbeatTick ((j, c) :: rest)
      = ((j, { c with isAlive := false }) :: (heartbeatTick rest).1,
         (heartbeatTick rest).2.1,
         j :: (heartbeatTick rest).2.2) := by
  simp [heartbeatTick, List.filterMap_cons, ha]

theorem heartbeatTick_cons_dead (j : Nat) (c : Conn) (rest : List (Nat × Conn))
    (ha : c.isAlive = false) :
    heartbeatTick ((j, c) :: rest)
      = ((heartbeatTick rest).1,
         j :: (heartbeatTick rest).2.1,
         (heartbeatTick rest).2.2) := by
  simp [heartbeatTick, List.filterMap_cons, ha]

theorem mem_mapKeys_heartbeat_survivors (conns : List (Nat × Conn)) (i : Nat)
    (h : i ∈ mapKeys (heartbeatTick conns).1) : i ∈ mapKeys conns := by
  induction conns with
  | nil => simpa [heartbeatTick] using h
  | cons p rest ih =>
    obtain ⟨j, c⟩ := p
    rw [mapKeys_cons, List.mem_cons]
    cases ha : c.isAlive
    · rw [heartbeatTick_cons_dead j c rest ha] at h
      exact Or.inr (ih h)
    · rw [heartbeatTick_cons_alive j c rest ha] at h
      rw [show mapKeys ((j, { c with isAlive := false }) :: (heartbeatTick rest).1)
            = j :: mapKeys (heartbeatTick rest).1 from rfl, List.mem_cons] at h
      rcases h with h | h
      · exact Or.inl h
      · exact Or.inr (ih h)

theorem mem_mapKeys_of_mem_heartbeat_evicted (conns : List (Nat × Conn)) (i : Nat)
    (h : i ∈ (heartbeatTick conns).2.1) : i ∈ mapKeys conns := by
  induction conns with
  | nil => simp [heartbeatTick] at h
  | cons p rest ih =>
    obtain ⟨j, c⟩ := p
    rw [mapKeys_cons, List.mem_cons]
    cases ha : c.isAlive
    · rw [heartbeatTick_cons_dead j c rest ha] at h
      rcases List.mem_cons.mp h with h | h
      · exact Or.inl h
      · exact Or.inr (ih h)
    · rw [heartbeatTick_cons_alive j c rest ha] at h
      exact Or.inr (ih h)

theorem nodup_mapKeys_heartbeat_survivors (conns : List (Nat × Conn))
    (hnd : (mapKeys conns).Nodup) : (mapKeys (heartbeatTick conns).1).Nodup := by
  induction conns with
  | nil => simp [heartbeatTick, mapKeys]
  | cons p rest ih =>
    obtain ⟨j, c⟩ := p
    rw [mapKeys_cons, List.nodup_cons] at hnd
    cases ha : c.isAlive
    · rw [heartbeatTick_cons_dead j c rest ha]
      exact ih hnd.2
    · rw [heartbeatTick_cons_alive j c rest ha]
      rw [show mapKeys ((j, { c with isAlive := false }) :: (heartbeatTick rest).1)
            = j :: mapKeys (heartbeatTick rest).1 from rfl, List.nodup_cons]
      exact ⟨fun hmem => hnd.1 (mem_mapKeys_heartbeat_survivors rest j hmem), ih hnd.2⟩

theorem mapLookup_heartbeat_survivors (conns : List (Nat × Conn)) (i : Nat)
    (hnd : (mapKeys conns).Nodup) :
    mapLookup (heartbeatTick conns).1 i
      = match mapLookup conns i with
        | none => none
        | some c => if c.isAlive then some { c with isAlive := false } else none := by
  induction conns with
  | nil => simp [heartbeatTick, mapLookup]
  | cons p rest ih =>
    obtain ⟨j, c⟩ := p
    rw [mapKeys_cons, List.nodup_cons] at hnd
    cases ha : c.isAlive
    · rw [heartbeatTick_cons_dead j c rest ha]
      by_cases hj : j = i
      · subst hj
        have hnone : mapLookup (heartbeatTick rest).1 j = none := by
          apply mapLookup_eq_none_of_not_mem
          intro hmem
          exact hnd.1 (mem_mapKeys_heartbeat_survivors rest j hmem)
        simp [mapLookup, ha, hnone]
      · rw [mapLookup_skip_head j c rest i hj]
        exact ih hnd.2
    · rw [heartbeatTick_cons_alive j c rest ha]
      by_cases hj : j = i
      · subst hj
        simp [mapLookup, ha]
      · rw [mapLookup_skip_head j { c with isAlive := false } (heartbeatTick rest).1 i hj,
          mapLookup_skip_head j c rest i hj]
        exact ih hnd.2

theorem mem_heartbeat_evicted_of (conns : List (Nat × Conn)) (i : Nat) (c : Conn)
    (hc : mapLookup conns i = some c) (hd : c.isAlive = false) :
    i ∈ (heartbeatTick conns).2.1 := by
  induction conns with
  | nil => simp [mapLookup] at hc
  | cons p rest ih =>
    obtain ⟨j, c'⟩ := p
    by_cases hj : j = i
    · subst hj
      have hcc : c' = c := by simpa [mapLookup] using hc
      subst hcc
      rw [heartbeatTick_cons_dead j c' rest hd]
      exact List.mem_cons_self j _
    · rw [mapLookup_skip_head j c' rest i hj] at hc
      cases ha : c'.isAlive
      · rw [heartbeatTick_cons_dead j c' rest ha]
        exact List.mem_cons_of_mem j (ih hc)
      · rw [heartbeatTick_cons_alive j c' rest ha]
        exact ih hc

theorem not_mem_heartbeat_evicted_of (conns : List (Nat × Conn)) (i : Nat) (c : Conn)
    (hnd : (mapKeys conns).Nodup) (hc : mapLookup conns i = some c)
    (ha : c.isAlive = true) : i ∉ (heartbeatTick conns).2.1 := by
  induction conns with
  | nil => simp [mapLookup] at hc
  | cons p rest ih =>
    obtain ⟨j, c'⟩ := p
    rw [mapKeys_cons, List.nodup_cons] at hnd
    by_cases hj : j = i
    · subst hj
      have hcc : c' = c := by simpa [mapLookup] using hc
      subst hcc
      rw [heartbeatTick_cons_alive j c' rest ha]
      intro hmem
      exact hnd.1 (mem_mapKeys_of_mem_heartbeat_evicted rest j hmem)
    · rw [mapLookup_skip_head j c' rest i hj] at hc
      cases ha' : c'.isAlive
      · rw [heartbeatTick_cons_dead j c' rest ha']
        intro hmem
        rcases List.mem_cons.mp hmem with h | h
        · exact hj h.symm
        · exact ih hnd.2 hc h
      · rw [heartbeatTick_cons_alive j c' rest ha']
        exact ih hnd.2 hc

theorem mem_heartbeat_pinged_of (conns : List (Nat × Conn)) (i : Nat) (c : Conn)
    (hc : mapLookup conns i = some c) (ha : c.isAlive = true) :
    i ∈ (heartbeatTick conns).2.2 := by
  induction conns with
  | nil => simp [mapLookup] at hc
  | cons p rest ih =>
    obtain ⟨j, c'⟩ := p
    by_cases hj : j = i
    · subst hj
      have hcc : c' = c := by simpa [mapLookup] using hc
      subst hcc
      rw [heartbeatTick_cons_alive j c' rest ha]
      exact List.mem_cons_self j _
    · rw [mapLookup_skip_head j c' rest i hj] at hc
      cases ha' : c'.isAlive
      · rw [heartbeatTick_cons_dead j c' rest ha']
        exact ih hc
      · rw [heartbeatTick_cons_alive j c' rest ha']
        exact List.mem_cons_of_mem j (ih hc)

theorem mapKeys_onPong (conns : List (Nat × Conn)) (i : Nat) :
    mapKeys (onPong conns i) = mapKeys conns := by
  induction conns with
  | nil => rfl
  | cons p rest ih =>
    obtain ⟨j, c⟩ := p
    by_cases hj : j = i <;> simp [onPong, mapKeys_cons, hj] at ih ⊢ <;> exact ih

theorem onPong_cons (j : Nat) (c : Conn) (rest : List (Nat × Conn)) (i : Nat) :
    onPong ((j, c) :: rest) i
      = (if j = i then (j, { c with isAlive := true }) else (j, c)) :: onPong rest i := by
  by_cases hj : j = i <;> simp [onPong, hj]

theorem mapLookup_onPong_self (conns : List (Nat × Conn)) (i : Nat) :
    mapLookup (onPong conns i) i
      = (mapLookup conns i).map (fun c => { c with isAlive := true }) := by
  induction conns with
  | nil => rfl
  | cons p rest ih =>
    obtain ⟨j, c⟩ := p
    rw [onPong_cons]
    by_cases hj : j = i
    · subst hj
      rw [if_pos rfl]
      simp [mapLookup]
    · rw [if_neg hj, mapLookup_skip_head j c (onPong rest i) i hj,
        mapLookup_skip_head j c rest i hj]
      exact ih

/-- C6: under the periodic heartbeat, a tracked connection whose liveness
flag is set is not evicted by the tick that finds it alive: that tick
clears its flag and probes it; a connection that still has its flag
cleared at the next tick is evicted then and removed from the registry, so
an unacknowledged connection is evicted exactly on the second tick — and a
connection that acknowledges the probe before the second tick survives it. -/
theorem C6_heartbeat_two_tick_eviction (conns : List (Nat × Conn)) (i : Nat) (c : Conn)
    (hnd : (mapKeys conns).Nodup) (hc : mapLookup conns i = some c)
    (ha : c.isAlive = true) :
    i ∉ (heartbeatTick conns).2.1
    ∧ mapLookup (heartbeatTick conns).1 i = some { c with isAlive := false }
    ∧ i ∈ (heartbeatTick conns).2.2
    ∧ i ∈ (heartbeatTick (heartbeatTick conns).1).2.1
    ∧ mapLookup (heartbeatTick (heartbeatTick conns).1).1 i = none
    ∧ i ∉ (heartbeatTick (onPong (heartbeatTick conns).1 i)).2.1 := by
  have hsurv : mapLookup (heartbeatTick conns).1 i = some { c with isAlive := false } := by
    rw [mapLookup_heartbeat_survivors conns i hnd, hc]
    simp [ha]
  have hndsurv := nodup_mapKeys_heartbeat_survivors conns hnd
  refine ⟨not_mem_heartbeat_evicted_of conns i c hnd hc ha, hsurv,
    mem_heartbeat_pinged_of conns i c hc ha,
    mem_heartbeat_evicted_of (heartbeatTick conns).1 i { c with isAlive := false } hsurv rfl,
    ?_, ?_⟩
  · rw [mapLookup_heartbeat_survivors (heartbeatTick conns).1 i hndsurv, hsurv]
    simp
  · have hpong : mapLookup (onPong (heartbeatTick conns).1 i) i
        = some { c with isAlive := true } := by
      rw [mapLookup_onPong_self, hsurv]
      rfl
    have hndpong : (mapKeys (onPong (heartbeatTick conns).1 i)).Nodup := by
      rw [mapKeys_onPong]
      exact hndsurv
    exact not_mem_heartbeat_evicted_of (onPong (heartbeatTick conns).1 i) i
      { c with isAlive := true } hndpong hpong rfl

theorem C6_heartbeat_two_tick_eviction_witness :
    (mapKeys [(1, (⟨1, some "G", true⟩ : Conn)), (2, (⟨2, none, false⟩ : Conn))]).Nodup
    ∧ mapLookup [(1, (⟨1, some "G", true⟩ : Conn)), (2, (⟨2, none, false⟩ : Conn))] 1
        = some ⟨1, some "G", true⟩
    ∧ (1 ∉ (heartbeatTick [(1, (⟨1, some "G", true⟩ : Conn)), (2, (⟨2, none, false⟩ : Conn))]).2.1
      ∧ mapLookup (heartbeatTick [(1, (⟨1, some "G", true⟩ : Conn)), (2, (⟨2, none, false⟩ : Conn))]).1 1
          = some ⟨1, some "G", false⟩
      ∧ 1 ∈ (heartbeatTick [(1, (⟨1, some "G", true⟩ : Conn)), (2, (⟨2, none, false⟩ : Conn))]).2.2
      ∧ 1 ∈ (heartbeatTick (heartbeatTick [(1, (⟨1, some "G", true⟩ : Conn)), (2, (⟨2, none, false⟩ : Conn))]).1).2.1
      ∧ mapLookup (heartbeatTick (heartbeatTick [(1, (⟨1, some "G", true⟩ : Conn)), (2, (⟨2, none, false⟩ : Conn))]).1).1 1 = none
      ∧ 1 ∉ (heartbeatTick (onPong (heartbeatTick [(1, (⟨1, some "G", true⟩ : Conn)), (2, (⟨2, none, false⟩ : Conn))]).1 1)).2.1) :=
  ⟨by decide, by decide,
   C6_heartbeat_two_tick_eviction
     [(1, (⟨1, some "G", true⟩ : Conn)), (2, (⟨2, none, false⟩ : Conn))] 1
     ⟨1, some "G", true⟩ (by decide) (by decide) rfl⟩

end NeuroSdk

namespace NeuroSdk

theorem mapKeys_set_of_not_mem {κ α : Type} [DecidableEq κ] (m : List (κ × α)) (k : κ) (v : α)
    (h : k ∉ mapKeys m) : mapKeys (mapSet m k v) = mapKeys m ++ [k] := by
  induction m with
  | nil => rfl
  | cons p rest ih =>
    obtain ⟨k', v'⟩ := p
    rw [mapKeys_cons, List.mem_cons] at h
    push_neg at h
    rw [mapSet_cons_ne _ _ _ _ _ (fun hh => h.1 hh.symm), mapKeys_cons, mapKeys_cons,
      ih h.2]
    rfl

theorem mapKeys_delete_eq_erase {κ α : Type} [DecidableEq κ] (m : List (κ × α)) (k : κ) :
    mapKeys (mapDelete m k) = (mapKeys m).erase k := by
  induction m with
  | nil => rfl
  | cons p rest ih =>
    obtain ⟨k', v'⟩ := p
    by_cases hk : k' = k
    · subst hk
      rw [mapDelete_cons_eq, mapKeys_cons, List.erase_cons_head]
    · rw [mapDelete_cons_ne _ _ _ _ hk, mapKeys_cons, mapKeys_cons,
        List.erase_cons_tail (by simpa using hk), ih]

theorem mapKeys_foldl_mapDelete {α : Type} (ds : List Nat) (q : List (Nat × α)) :
    mapKeys (ds.foldl mapDelete q) = ds.foldl (fun ks d => ks.erase d) (mapKeys q) := by
  induction ds generalizing q with
  | nil => rfl
  | cons d ds ih =>
    rw [List.foldl_cons, List.foldl_cons, ih (mapDelete q d), mapKeys_delete_eq_erase]

theorem foldl_erase_eq_filter (ds : List Nat) (l : List Nat) (hnd : l.Nodup) :
    ds.foldl (fun ks d => ks.erase d) l = l.filter (fun x => decide (x ∉ ds)) := by
  induction ds generalizing l with
  | nil => simp
  | cons d ds ih =>
    rw [List.foldl_cons, ih (l.erase d) (hnd.erase d),
      List.Nodup.erase_eq_filter hnd d, List.filter_filter]
    apply List.filter_congr
    intro x hx
    by_cases hxd : x = d <;> by_cases hxs : x ∈ ds <;> simp [hxd, hxs, List.mem_cons]

theorem mapKeys_heartbeat_survivors_eq (conns : List (Nat × Conn)) :
    mapKeys (heartbeatTick conns).1 = (heartbeatTick conns).2.2 := by
  induction conns with
  | nil => rfl
  | cons p rest ih =>
    obtain ⟨j, c⟩ := p
    cases ha : c.isAlive
    · rw [heartbeatTick_cons_dead j c rest ha]
      exact ih
    · rw [heartbeatTick_cons_alive j c rest ha]
      rw [show mapKeys ((j, { c with isAlive := false }) :: (heartbeatTick rest).1)
            = j :: mapKeys (heartbeatTick rest).1 from rfl, ih]

theorem heartbeat_pinged_eq_filter (conns : List (Nat × Conn))
    (hnd : (mapKeys conns).Nodup) :
    (heartbeatTick conns).2.2
      = (mapKeys conns).filter (fun x => decide (x ∉ (heartbeatTick conns).2.1)) := by
  induction conns with
  | nil => rfl
  | cons p rest ih =>
    obtain ⟨j, c⟩ := p
    rw [mapKeys_cons, List.nodup_cons] at hnd
    cases ha : c.isAlive
    · rw [heartbeatTick_cons_dead j c rest ha, mapKeys_cons, List.filter_cons]
      have hhead : decide (j ∉ j :: (heartbeatTick rest).2.1) = false := by simp
      rw [hhead]
      simp only [Bool.false_eq_true, if_false]
      rw [ih hnd.2]
      apply List.filter_congr
      intro x hx
      have hxj : ¬ x = j := fun hh => hnd.1 (hh ▸ hx)
      simp [List.mem_cons, hxj]
    · rw [heartbeatTick_cons_alive j c rest ha, mapKeys_cons, List.filter_cons]
      have hj : j ∉ (heartbeatTick rest).2.1 := fun hmem =>
        hnd.1 (mem_mapKeys_of_mem_heartbeat_evicted rest j hmem)
      have hhead : decide (j ∉ (heartbeatTick rest).2.1) = true := by simp [hj]
      rw [hhead]
      simp only [if_true]
      rw [ih hnd.2]

/-- C10: every connection-lifecycle operation of the message-queue server
variant preserves the invariant that the message-queue map and the
connection registry hold exactly the same connection ids (with unique ids
drawn from the counter): accepting a connection inserts an entry into
both, a socket close removes its entry from both, and a heartbeat sweep
removes every evicted connection's entry from both. -/
theorem C10_queue_registry_correspondence (s : ServerConnState)
    (h : queueRegistryInvariant s) (i : Nat) :
    queueRegistryInvariant (acceptConnection s)
    ∧ queueRegistryInvariant (closeConnection s i)
    ∧ queueRegistryInvariant (serverHeartbeatTick s) := by
  obtain ⟨hkeys, hnd, hbound⟩ := h
  have hfresh : s.connectionIdCounter + 1 ∉ mapKeys s.connections := fun hmem =>
    Nat.not_succ_le_self s.connectionIdCounter (hbound _ hmem)
  have hfreshq : s.connectionIdCounter + 1 ∉ mapKeys s.messageQueues := by
    rw [← hkeys]
    exact hfresh
  have haccc : mapKeys (acceptConnection s).connections
      = mapKeys s.connections ++ [s.connectionIdCounter + 1] :=
    mapKeys_set_of_not_mem _ _ _ hfresh
  have haccq : mapKeys (acceptConnection s).messageQueues
      = mapKeys s.messageQueues ++ [s.connectionIdCounter + 1] :=
    mapKeys_set_of_not_mem _ _ _ hfreshq
  have hhbc : mapKeys (serverHeartbeatTick s).connections
      = (mapKeys s.connections).filter
          (fun x => decide (x ∉ (heartbeatTick s.connections).2.1)) := by
    rw [show (serverHeartbeatTick s).connections = (heartbeatTick s.connections).1 from rfl,
      mapKeys_heartbeat_survivors_eq, heartbeat_pinged_eq_filter s.connections hnd]
  have hhbq : mapKeys (serverHeartbeatTick s).messageQueues
      = (mapKeys s.messageQueues).filter
          (fun x => decide (x ∉ (heartbeatTick s.connections).2.1)) := by
    rw [show (serverHeartbeatTick s).messageQueues
          = (heartbeatTick s.connections).2.1.foldl mapDelete s.messageQueues from rfl,
      mapKeys_foldl_mapDelete, foldl_erase_eq_filter _ _ (hkeys ▸ hnd)]
  refine ⟨⟨?_, ?_, ?_⟩, ⟨?_, ?_, ?_⟩, ⟨?_, ?_, ?_⟩⟩
  · rw [haccc, haccq, hkeys]
  · rw [haccc]
    refine List.Nodup.append hnd (List.nodup_singleton _) ?_
    intro x hx hx2
    rw [List.mem_singleton] at hx2
    subst hx2
    exact hfresh hx
  · intro j hj
    rw [haccc, List.mem_append, List.mem_singleton] at hj
    show j ≤ s.connectionIdCounter + 1
    rcases hj with hj | hj
    · exact Nat.le_succ_of_le (hbound j hj)
    · exact hj.le
  · rw [show (closeConnection s i).connections = mapDelete s.connections i from rfl,
      show (closeConnection s i).messageQueues = mapDelete s.messageQueues i from rfl,
      mapKeys_delete_eq_erase, mapKeys_delete_eq_erase, hkeys]
  · rw [show (closeConnection s i).connections = mapDelete s.connections i from rfl,
      mapKeys_delete_eq_erase]
    exact hnd.erase i
  · intro j hj
    rw [show (closeConnection s i).connections = mapDelete s.connections i from rfl,
      mapKeys_delete_eq_erase] at hj
    exact hbound j (List.mem_of_mem_erase hj)
  · rw [hhbc, hhbq, hkeys]
  · rw [hhbc]
    exact hnd.filter _
  · intro j hj
    rw [hhbc] at hj
    exact hbound j (List.mem_of_mem_filter hj)

theorem C10_queue_registry_correspondence_witness :
    queueRegistryInvariant
      ⟨[(1, ⟨1, none, true⟩), (2, ⟨2, some "G", false⟩)], [(1, []), (2, [])], 2⟩
    ∧ (queueRegistryInvariant
        (acceptConnection
          ⟨[(1, ⟨1, none, true⟩), (2, ⟨2, some "G", false⟩)], [(1, []), (2, [])], 2⟩)
      ∧ queueRegistryInvariant
          (closeConnection
            ⟨[(1, ⟨1, none, true⟩), (2, ⟨2, some "G", false⟩)], [(1, []), (2, [])], 2⟩ 1)
      ∧ queueRegistryInvariant
          (serverHeartbeatTick
            ⟨[(1, ⟨1, none, true⟩), (2, ⟨2, some "G", false⟩)], [(1, []), (2, [])], 2⟩)) :=
  ⟨⟨rfl, by decide, by decide⟩,
   C10_queue_registry_correspondence
     ⟨[(1, ⟨1, none, true⟩), (2, ⟨2, some "G", false⟩)], [(1, []), (2, [])], 2⟩
     ⟨rfl, by decide, by decide⟩ 1⟩

end NeuroSdk

namespace NeuroSdk

/-- C1 counterexample: with only `guess_number` registered, a force
request naming `guess_number` and `unknown_action` does not always invoke
the registered action in the express-based director — the draw is over
all candidate names, and the draw landing on `unknown_action` (index 1)
results in no invocation at all: nothing is sent and no invocation
becomes outstanding. -/
theorem C1_force_selection_counterexample :
    (fireTimer (onMessageReceived ⟨[guessAction], none, [], []⟩
        (.force ["guess_number", "unknown_action"] 1)) "id_1").2 = none
    ∧ (fireTimer (onMessageReceived ⟨[guessAction], none, [], []⟩
        (.force ["guess_number", "unknown_action"] 1)) "id_1").1.pendingResult = none := by
  decide

/-- C1 (amended): in the RandyServer, the invoked action is drawn by
indexing exactly the list of candidates present in the game's catalogue —
so every draw invokes an action that is both registered and requested,
and the drawn action becomes the outstanding invocation; in the
express-based director the draw ranges over all candidate names, and a
drawn name that is absent from the `actions` array (and is not the
special-cased `choose_name`) sends nothing, so the registered candidate
is invoked only when it is drawn. -/
theorem C1_force_selection (known : List Action) (names : List String) (pick : Nat)
    (s : RandyState) (g fid : String)
    (hreg : mapLookup s.registeredActions g = some known)
    (a : Action) (hpick : (availableActions known names).get? pick = some a)
    (t : CoordState) (nm tfid : String) (hnm : ¬ nm = "choose_name")
    (habs : t.actions.find? (fun x => x.name == nm) = none)
    (b : Action) :
    (executeRandomAction s g names pick fid).2 = some { id := fid, name := a.name }
    ∧ (executeRandomAction s g names pick fid).1.pendingResult = some (fid, a.name)
    ∧ a ∈ known ∧ names.contains a.name = true
    ∧ (b ∈ availableActions known names ↔ b ∈ known ∧ names.contains b.name = true)
    ∧ sendAction t nm tfid = (t, none) := by
  have hempty : (availableActions known names).isEmpty = false := by
    cases hh : (availableActions known names).isEmpty
    · rfl
    · rw [List.isEmpty_iff.mp hh] at hpick
      simp at hpick
  have hmem : a ∈ availableActions known names := List.get?_mem hpick
  have hmem' := List.mem_filter.mp hmem
  have hpick' : (availableActions known names)[pick]? = some a := by
    rw [← List.get?_eq_getElem?]
    exact hpick
  refine ⟨?_, ?_, hmem'.1, hmem'.2, ?_, ?_⟩
  · simp [executeRandomAction, hreg, hempty, hpick']
  · simp [executeRandomAction, hreg, hempty, hpick']
  · exact List.mem_filter
  · simp [sendAction, hnm, habs]

theorem C1_force_selection_witness :
    mapLookup ([("G", [guessAction])] : List (String × List Action)) "G" = some [guessAction]
    ∧ (availableActions [guessAction] ["guess_number", "unknown_action"]).get? 0 = some guessAction
    ∧ ¬ "unknown_action" = "choose_name"
    ∧ ([guessAction].find? (fun x => x.name == "unknown_action")) = none
    ∧ ((executeRandomAction ⟨[("G", [guessAction])], none, [], []⟩ "G"
          ["guess_number", "unknown_action"] 0 "id_1").2
        = some { id := "id_1", name := guessAction.name }
      ∧ (executeRandomAction ⟨[("G", [guessAction])], none, [], []⟩ "G"
          ["guess_number", "unknown_action"] 0 "id_1").1.pendingResult
        = some ("id_1", guessAction.name)
      ∧ guessAction ∈ [guessAction]
      ∧ (["guess_number", "unknown_action"].contains guessAction.name) = true
      ∧ (guessAction ∈ availableActions [guessAction] ["guess_number", "unknown_action"]
          ↔ guessAction ∈ [guessAction]
            ∧ (["guess_number", "unknown_action"].contains guessAction.name) = true)
      ∧ sendAction ⟨[guessAction], none, [], []⟩ "unknown_action" "id_2"
          = (⟨[guessAction], none, [], []⟩, none)) :=
  ⟨by decide, by decide, by decide, by decide,
   C1_force_selection [guessAction] ["guess_number", "unknown_action"] 0
     ⟨[("G", [guessAction])], none, [], []⟩ "G" "id_1" (by decide) guessAction (by decide)
     ⟨[guessAction], none, [], []⟩ "unknown_action" "id_2" (by decide) (by decide)
     guessAction⟩

/-- C9: a result envelope whose id does not match the outstanding
invocation (or that arrives with no invocation outstanding) is only
logged: both the express-based director and the RandyServer leave their
entire state — outstanding invocation, backlog, catalogue, timers —
unchanged. -/
theorem C9_unmatched_result_ignored (s : CoordState) (rid : String) (success : Bool)
    (h : unmatchedResult s.pendingResult rid = true)
    (r : RandyState) (g rid2 : String) (succ2 : Bool)
    (h2 : unmatchedResult r.pendingResult rid2 = true) :
    onMessageReceived s (.result rid success) = s
    ∧ randyOnResult r g rid2 succ2 = r := by
  constructor
  · cases hp : s.pendingResult with
    | none => simp [onMessageReceived, hp]
    | some p =>
      obtain ⟨pid, pname⟩ := p
      rw [hp] at h
      simp only [unmatchedResult, bne_iff_ne, ne_eq] at h
      have hne : ¬ rid = pid := fun hh => h hh.symm
      simp [onMessageReceived, hp, hne]
  · cases hp : r.pendingResult with
    | none => simp [randyOnResult, hp]
    | some p =>
      obtain ⟨pid, pname⟩ := p
      rw [hp] at h2
      simp only [unmatchedResult, bne_iff_ne, ne_eq] at h2
      simp [randyOnResult, hp, h2]

theorem C9_unmatched_result_ignored_witness :
    unmatchedResult (some ("X", "guess_number")) "Y" = true
    ∧ unmatchedResult (none : Option (String × String)) "Z" = true
    ∧ (onMessageReceived ⟨[guessAction], some ("X", "guess_number"), ["queued"], []⟩
        (.result "Y" true)
        = ⟨[guessAction], some ("X", "guess_number"), ["queued"], []⟩
      ∧ randyOnResult ⟨[("G", [guessAction])], none, [], []⟩ "G" "Z" false
        = ⟨[("G", [guessAction])], none, [], []⟩) :=
  ⟨by decide, by decide,
   C9_unmatched_result_ignored ⟨[guessAction], some ("X", "guess_number"), ["queued"], []⟩
     "Y" true (by decide) ⟨[("G", [guessAction])], none, [], []⟩ "G" "Z" false (by decide)⟩

end NeuroSdk

namespace NeuroSdk

theorem find?_name_eq (l : List Action) (nm : String) (a : Action)
    (h : l.find? (fun x => x.name == nm) = some a) : a.name = nm := by
  have := List.find?_some h
  simpa using this

theorem retryStep_spec (s : CoordState) (i nm fid : String)
    (hp : s.pendingResult = some (i, nm)) (ht : s.timers = [])
    (hf : nm = "choose_name" ∨ (s.actions.find? (fun a => a.name == nm)).isSome = true) :
    (retryStep s fid).pendingResult = some (fid, nm)
    ∧ (retryStep s fid).timers = []
    ∧ (retryStep s fid).actions = s.actions
    ∧ (retryStep s fid).actionForceQueue = s.actionForceQueue := by
  have h0 : retryStep s fid = (fireTimer (onMessageReceived s (.result i false)) fid).1 := by
    simp [retryStep, hp]
  have h1 : onMessageReceived s (.result i false)
      = { s with pendingResult := none, timers := s.timers ++ [.send nm] } := by
    simp [onMessageReceived, hp]
  rw [h0, h1, ht]
  rcases hf with hcn | hfind
  · subst hcn
    simp [fireTimer, sendAction]
  · obtain ⟨a, ha⟩ := Option.isSome_iff_exists.mp hfind
    have hname : a.name = nm := find?_name_eq s.actions nm a ha
    by_cases hcn : nm = "choose_name"
    · simp [fireTimer, sendAction, hcn]
    · simp [fireTimer, sendAction, hcn, ha, hname]

theorem retryIter_spec (n : Nat) (ids : Nat → String) (s : CoordState) (i nm : String)
    (hp : s.pendingResult = some (i, nm)) (ht : s.timers = [])
    (hf : nm = "choose_name" ∨ (s.actions.find? (fun a => a.name == nm)).isSome = true) :
    ((retryIter s ids n).pendingResult.map Prod.snd = some nm)
    ∧ (retryIter s ids n).pendingResult.isSome = true
    ∧ (retryIter s ids n).timers = []
    ∧ (retryIter s ids n).actions = s.actions
    ∧ (retryIter s ids n).actionForceQueue = s.actionForceQueue := by
  induction n generalizing ids s i with
  | zero => simp [retryIter, hp, ht]
  | succ n ih =>
    have hstep := retryStep_spec s i nm (ids 0) hp ht hf
    have hf' : nm = "choose_name"
        ∨ ((retryStep s (ids 0)).actions.find? (fun a => a.name == nm)).isSome = true := by
      rw [hstep.2.2.1]
      exact hf
    have hrec := ih (fun k => ids (k + 1)) (retryStep s (ids 0)) (ids 0)
      hstep.1 hstep.2.1 hf'
    rw [show retryIter s ids (n + 1)
          = retryIter (retryStep s (ids 0)) (fun k => ids (k + 1)) n from rfl]
    refine ⟨hrec.1, hrec.2.1, hrec.2.2.1, ?_, ?_⟩
    · rw [hrec.2.2.2.1, hstep.2.2.1]
    · rw [hrec.2.2.2.2, hstep.2.2.2]

/-- C2 counterexample: the RandyServer's result handler ignores the
success flag — a matching failure result completes the invocation: the
coordinator drops the outstanding invocation, schedules nothing, and sits
Idle instead of re-arming the same action name. -/
theorem C2_retry_counterexample :
    randyOnResult ⟨[("G", [guessAction])], some ("X", "guess_number"), [], []⟩ "G" "X" false
      = ⟨[("G", [guessAction])], none, [], []⟩ := by
  decide

/-- C2 (amended): in the express-based director, a matching failure result
re-arms the same action name with a freshly generated invocation id once
the settle-delay timer fires, and iterating failure rounds any number of
times leaves the coordinator awaiting an invocation of that same name —
never Idle at a round boundary and never drawing a different candidate;
the RandyServer example instead treats any matching result, failure
included, as completion of the invocation without a retry. -/
theorem C2_retry_same_action (s : CoordState) (i nm : String) (ids : Nat → String) (n : Nat)
    (hp : s.pendingResult = some (i, nm)) (ht : s.timers = [])
    (hf : nm = "choose_name" ∨ (s.actions.find? (fun a => a.name == nm)).isSome = true)
    (r : RandyState) (g rid rnm : String)
    (hrp : r.pendingResult = some (rid, rnm)) (hrq : r.actionForceQueue = []) :
    (retryStep s (ids 0)).pendingResult = some (ids 0, nm)
    ∧ (retryIter s ids n).pendingResult.map Prod.snd = some nm
    ∧ (retryIter s ids n).pendingResult.isSome = true
    ∧ (retryIter s ids n).actions = s.actions
    ∧ randyOnResult r g rid false = { r with pendingResult := none } := by
  have hstep := retryStep_spec s i nm (ids 0) hp ht hf
  have hiter := retryIter_spec n ids s i nm hp ht hf
  refine ⟨hstep.1, hiter.1, hiter.2.1, hiter.2.2.2.1, ?_⟩
  simp [randyOnResult, hrp, hrq]

theorem C2_retry_same_action_witness :
    (⟨[guessAction], some ("X", "guess_number"), [], []⟩ : CoordState).pendingResult
      = some ("X", "guess_number")
    ∧ (([guessAction].find? (fun a => a.name == "guess_number")).isSome = true)
    ∧ ((retryStep ⟨[guessAction], some ("X", "guess_number"), [], []⟩ (freshIds 0)).pendingResult
        = some (freshIds 0, "guess_number")
      ∧ (retryIter ⟨[guessAction], some ("X", "guess_number"), [], []⟩ freshIds 3).pendingResult.map Prod.snd
        = some "guess_number"
      ∧ (retryIter ⟨[guessAction], some ("X", "guess_number"), [], []⟩ freshIds 3).pendingResult.isSome = true
      ∧ (retryIter ⟨[guessAction], some ("X", "guess_number"), [], []⟩ freshIds 3).actions = [guessAction]
      ∧ randyOnResult ⟨[("G", [guessAction])], some ("Y", "guess_number"), [], []⟩ "G" "Y" false
        = { (⟨[("G", [guessAction])], some ("Y", "guess_number"), [], []⟩ : RandyState)
            with pendingResult := none }) :=
  ⟨rfl, by decide,
   C2_retry_same_action ⟨[guessAction], some ("X", "guess_number"), [], []⟩ "X" "guess_number"
     freshIds 3 rfl rfl (Or.inr (by decide))
     ⟨[("G", [guessAction])], some ("Y", "guess_number"), [], []⟩ "G" "Y" "guess_number"
     rfl rfl⟩

end NeuroSdk

namespace NeuroSdk

/-- C7: two force requests arriving while an invocation is outstanding are
backlogged in arrival order; the success of the outstanding invocation
makes the director send backlog entry E1 (one entry per completed
invocation), and only the success of that invocation makes it send E2 —
the backlog is consumed strictly first-in first-out. -/
theorem C7_fifo_backlog (s : CoordState) (pid nm0 e1 e2 fid1 fid2 : String)
    (hp : s.pendingResult = some (pid, nm0)) (hq : s.actionForceQueue = [])
    (ht : s.timers = [])
    (a1 : Action) (hf1 : s.actions.find? (fun a => a.name == e1) = some a1)
    (a2 : Action) (hf2 : s.actions.find? (fun a => a.name == e2) = some a2)
    (hcn1 : ¬ e1 = "choose_name") (hcn2 : ¬ e2 = "choose_name") :
    (backlogTwo s e1 e2).actionForceQueue = [e1, e2]
    ∧ (fifoStep (backlogTwo s e1 e2) pid fid1).2 = some { id := fid1, name := e1 }
    ∧ (fifoStep (backlogTwo s e1 e2) pid fid1).1.pendingResult = some (fid1, e1)
    ∧ (fifoStep (backlogTwo s e1 e2) pid fid1).1.actionForceQueue = [e2]
    ∧ (fifoStep (fifoStep (backlogTwo s e1 e2) pid fid1).1 fid1 fid2).2
        = some { id := fid2, name := e2 }
    ∧ (fifoStep (fifoStep (backlogTwo s e1 e2) pid fid1).1 fid1 fid2).1.pendingResult
        = some (fid2, e2)
    ∧ (fifoStep (fifoStep (backlogTwo s e1 e2) pid fid1).1 fid1 fid2).1.actionForceQueue
        = [] := by
  have hname1 := find?_name_eq s.actions e1 a1 hf1
  have hname2 := find?_name_eq s.actions e2 a2 hf2
  have hA : backlogTwo s e1 e2 = { s with actionForceQueue := [e1, e2] } := by
    simp [backlogTwo, onMessageReceived, hp, hq]
  have hB : onMessageReceived (backlogTwo s e1 e2) (.result pid true)
      = { s with pendingResult := none, actionForceQueue := [e1, e2],
                 timers := [.sendShift] } := by
    rw [hA]
    simp [onMessageReceived, hp, ht]
  have hC : fifoStep (backlogTwo s e1 e2) pid fid1
      = ({ s with pendingResult := some (fid1, a1.name), actionForceQueue := [e2],
                  timers := [] },
         some { id := fid1, name := a1.name }) := by
    rw [show fifoStep (backlogTwo s e1 e2) pid fid1
          = fireTimer (onMessageReceived (backlogTwo s e1 e2) (.result pid true)) fid1
        from rfl, hB]
    simp [fireTimer, sendAction, hcn1, hf1]
  have hD : onMessageReceived (fifoStep (backlogTwo s e1 e2) pid fid1).1 (.result fid1 true)
      = { s with pendingResult := none, actionForceQueue := [e2],
                 timers := [.sendShift] } := by
    rw [hC]
    simp [onMessageReceived]
  have hE : fifoStep (fifoStep (backlogTwo s e1 e2) pid fid1).1 fid1 fid2
      = ({ s with pendingResult := some (fid2, a2.name), actionForceQueue := [],
                  timers := [] },
         some { id := fid2, name := a2.name }) := by
    rw [show fifoStep (fifoStep (backlogTwo s e1 e2) pid fid1).1 fid1 fid2
          = fireTimer
              (onMessageReceived (fifoStep (backlogTwo s e1 e2) pid fid1).1
                (.result fid1 true)) fid2
        from rfl, hD]
    simp [fireTimer, sendAction, hcn2, hf2]
  refine ⟨by rw [hA], ?_, ?_, by rw [hC], ?_, ?_, by rw [hE]⟩
  · rw [hC, hname1]
  · rw [hC, hname1]
  · rw [hE, hname2]
  · rw [hE, hname2]

theorem C7_fifo_backlog_witness :
    (⟨[guessAction, actKeep], some ("X", "guess_number"), [], []⟩ : CoordState).pendingResult
      = some ("X", "guess_number")
    ∧ [guessAction, actKeep].find? (fun a => a.name == "guess_number") = some guessAction
    ∧ [guessAction, actKeep].find? (fun a => a.name == "keep") = some actKeep
    ∧ ((backlogTwo ⟨[guessAction, actKeep], some ("X", "guess_number"), [], []⟩
          "guess_number" "keep").actionForceQueue = ["guess_number", "keep"]
      ∧ (fifoStep (backlogTwo ⟨[guessAction, actKeep], some ("X", "guess_number"), [], []⟩
            "guess_number" "keep") "X" "id_1").2
          = some { id := "id_1", name := "guess_number" }
      ∧ (fifoStep (backlogTwo ⟨[guessAction, actKeep], some ("X", "guess_number"), [], []⟩
            "guess_number" "keep") "X" "id_1").1.pendingResult = some ("id_1", "guess_number")
      ∧ (fifoStep (backlogTwo ⟨[guessAction, actKeep], some ("X", "guess_number"), [], []⟩
            "guess_number" "keep") "X" "id_1").1.actionForceQueue = ["keep"]
      ∧ (fifoStep (fifoStep (backlogTwo ⟨[guessAction, actKeep], some ("X", "guess_number"), [], []⟩
            "guess_number" "keep") "X" "id_1").1 "id_1" "id_2").2
          = some { id := "id_2", name := "keep" }
      ∧ (fifoStep (fifoStep (backlogTwo ⟨[guessAction, actKeep], some ("X", "guess_number"), [], []⟩
            "guess_number" "keep") "X" "id_1").1 "id_1" "id_2").1.pendingResult
          = some ("id_2", "keep")
      ∧ (fifoStep (fifoStep (backlogTwo ⟨[guessAction, actKeep], some ("X", "guess_number"), [], []⟩
            "guess_number" "keep") "X" "id_1").1 "id_1" "id_2").1.actionForceQueue = []) :=
  ⟨rfl, by decide, by decide,
   C7_fifo_backlog ⟨[guessAction, actKeep], some ("X", "guess_number"), [], []⟩
     "X" "guess_number" "guess_number" "keep" "id_1" "id_2" rfl rfl rfl
     guessAction (by decide) actKeep (by decide) (by decide) (by decide)⟩

end NeuroSdk

namespace NeuroSdk

theorem digitChar_toNat (d : Nat) (h : d < 10) : (Nat.digitChar d).toNat = 48 + d := by
  interval_cases d <;> rfl

theorem digitChar_ne_underscore (d : Nat) (h : d < 10) : ¬ Nat.digitChar d = '_' := by
  interval_cases d <;> decide

theorem natVal_natChars (n : Nat) : natVal (natChars n) = n := by
  induction n using Nat.strong_induction_on with
  | _ n ih =>
    rw [natChars]
    by_cases h : n < 10
    · rw [if_pos h]
      simp [natVal, digitChar_toNat n h]
    · rw [if_neg h]
      have hlt : n / 10 < n := Nat.div_lt_self (by omega) (by omega)
      have hmod : n % 10 < 10 := Nat.mod_lt _ (by omega)
      have hsplit : natVal (natChars (n / 10) ++ [Nat.digitChar (n % 10)])
          = natVal (natChars (n / 10)) * 10 + ((Nat.digitChar (n % 10)).toNat - 48) := by
        simp [natVal, List.foldl_append]
      rw [hsplit, ih _ hlt, digitChar_toNat _ hmod]
      omega

theorem natChars_injective (a b : Nat) (h : natChars a = natChars b) : a = b := by
  have hv := congrArg natVal h
  rwa [natVal_natChars, natVal_natChars] at hv

theorem natChars_no_underscore (n : Nat) (c : Char) (hc : c ∈ natChars n) : ¬ c = '_' := by
  induction n using Nat.strong_induction_on with
  | _ n ih =>
    rw [natChars] at hc
    by_cases h : n < 10
    · rw [if_pos h] at hc
      rw [List.mem_singleton] at hc
      subst hc
      exact digitChar_ne_underscore n h
    · rw [if_neg h] at hc
      rcases List.mem_append.mp hc with hm | hm
      · exact ih _ (Nat.div_lt_self (by omega) (by omega)) hm
      · rw [List.mem_singleton] at hm
        subst hm
        exact digitChar_ne_underscore _ (Nat.mod_lt _ (by omega))

theorem append_underscore_inj (a1 : List Char) :
    ∀ (a2 r1 r2 : List Char), '_' ∉ a1 → '_' ∉ a2 →
      a1 ++ '_' :: r1 = a2 ++ '_' :: r2 → a1 = a2 ∧ r1 = r2 := by
  induction a1 with
  | nil =>
    intro a2 r1 r2 _h1 h2 heq
    cases a2 with
    | nil => simpa using heq
    | cons c a2 =>
      rw [List.nil_append, List.cons_append] at heq
      injection heq with h3 h4
      exact absurd (by rw [h3]; exact List.mem_cons_self c a2) h2
  | cons c a1 ih =>
    intro a2 r1 r2 h1 h2 heq
    cases a2 with
    | nil =>
      rw [List.cons_append, List.nil_append] at heq
      injection heq with h3 h4
      exact absurd (by rw [← h3]; exact List.mem_cons_self c a1) h1
    | cons d a2 =>
      rw [List.cons_append, List.cons_append] at heq
      injection heq with h3 h4
      subst h3
      have h1' : '_' ∉ a1 := fun hm => h1 (List.mem_cons_of_mem c hm)
      have h2' : '_' ∉ a2 := fun hm => h2 (List.mem_cons_of_mem c hm)
      obtain ⟨ha, hr⟩ := ih a2 r1 r2 h1' h2' h4
      exact ⟨by rw [ha], hr⟩

theorem stringData_inj (s t : String) (h : s.data = t.data) : s = t := by
  cases s
  cases t
  exact congrArg String.mk h

theorem stringData_append (s t : String) : (s ++ t).data = s.data ++ t.data := by
  cases s
  cases t
  rfl

theorem natRepr_data (n : Nat) : (natRepr n).data = natChars n := rfl

/-- C8 counterexample: the generator's output is a pure function of the
observed timestamp and random draw; two distinct calls that happen to see
the same millisecond and the same random value — which nothing in the code
prevents — return the same id, so the 2-call trace below contains a
duplicate invocation id. -/
theorem C8_generateActionId_collision :
    ¬ ([generateActionId 1700000000000 "k2j3h4g5f",
        generateActionId 1700000000000 "k2j3h4g5f"] : List String).Nodup := by
  simp

/-- C8 (amended): the generator returns distinct ids exactly when the
observed timestamp/random-suffix pairs differ (the decimal timestamp
contains no underscore, so the id determines both inputs); it provides no
unconditional process-lifetime uniqueness, since a repeated timestamp and
draw repeats the id. -/
theorem C8_generateActionId_injective (t1 t2 : Nat) (r1 r2 : String) :
    generateActionId t1 r1 = generateActionId t2 r2 ↔ (t1 = t2 ∧ r1 = r2) := by
  constructor
  · intro h
    have hd := congrArg String.data h
    rw [show generateActionId t1 r1 = "action_" ++ natRepr t1 ++ "_" ++ r1 from rfl,
      show generateActionId t2 r2 = "action_" ++ natRepr t2 ++ "_" ++ r2 from rfl,
      stringData_append, stringData_append, stringData_append,
      stringData_append, stringData_append, stringData_append,
      natRepr_data, natRepr_data] at hd
    have hd' : "action_".data ++ (natChars t1 ++ '_' :: r1.data)
        = "action_".data ++ (natChars t2 ++ '_' :: r2.data) := by
      simpa [List.append_assoc] using hd
    have hmid := List.append_cancel_left hd'
    obtain ⟨hT, hR⟩ := append_underscore_inj (natChars t1) (natChars t2) r1.data r2.data
      (fun hm => natChars_no_underscore t1 '_' hm rfl)
      (fun hm => natChars_no_underscore t2 '_' hm rfl) hmid
    exact ⟨natChars_injective t1 t2 hT, stringData_inj r1 r2 hR⟩
  · rintro ⟨rfl, rfl⟩
    rfl

end NeuroSdk
